import Mathlib

/-!
Verification of the paper-daily multi-source ingestion pipeline
(src/fetcher.py, src/app.py, src/scripts/fetch_papers.py).

The pure parsing and normalization logic of the adapters is shallowly
embedded: upstream HTTP responses become explicit input structures, and
each fallible network or parse step becomes an Except value supplied by
the environment. Python string operations are re-implemented over
List Char so that every definition evaluates inside the kernel.
-/

set_option maxRecDepth 8000

namespace PaperDaily

/-- The common normalized record shape produced by every adapter: the
dicts built in parse_arxiv_entry, fetch_hf_daily_papers and
fetch_crossref_venue (fetcher.py lines 58-68, 86-99, 236-246). -/
structure PaperRecord where
  arxiv_id : String
  title : String
  authors : List String
  abstract : String
  categories : List String
  url : String
  pdf_url : String
  published : String
  source : String
deriving Repr, DecidableEq

/-! ### Python string primitives -/

/-- Python s.split(sep) with a non-empty separator, over char lists.
The Nat argument counts separator characters still to be skipped after a
match; acc accumulates the current piece in reverse. -/
def splitOnAux (sep : List Char) : List Char → Nat → List Char → List (List Char)
  | [], _, acc => [acc.reverse]
  | _ :: cs, Nat.succ k, acc => splitOnAux sep cs k acc
  | c :: cs, 0, acc =>
    if sep.isPrefixOf (c :: cs) then
      acc.reverse :: splitOnAux sep cs (sep.length - 1) []
    else
      splitOnAux sep cs 0 (c :: acc)

/-- Python s.split(sep). Both call sites in fetcher.py use a non-empty
separator ("/abs/" on lines 39 and 124, "v" on line 125). -/
def pySplit (s sep : String) : List String :=
  (splitOnAux sep.data s.data 0 []).map String.mk

/-- Python s.split(sep)[-1] (fetcher.py line 39): pySplit always returns
a non-empty list, so the default is never used. -/
def lastPart (s sep : String) : String :=
  (pySplit s sep).getLastD ""

/-- Python s.split("v")[0] (fetcher.py line 125): strip the version
suffix of an arXiv id. -/
def stripVersion (s : String) : String :=
  (pySplit s "v").headD ""

/-- Python s.startswith(p). -/
def pyStartsWith (s p : String) : Bool :=
  p.data.isPrefixOf s.data

/-- Python slicing s[:n]: the first n characters. -/
def pyTake (s : String) (n : Nat) : String :=
  String.mk (s.data.take n)

/-- Python s.strip(): drop whitespace from both ends. -/
def pyStrip (s : String) : String :=
  String.mk (((s.data.dropWhile Char.isWhitespace).reverse.dropWhile Char.isWhitespace).reverse)

/-- Python s.split() (no argument): split on runs of whitespace, keeping
no empty pieces; cur accumulates the current word in reverse. -/
def pySplitWsAux (cur : List Char) : List Char → List (List Char)
  | [] => if cur = [] then [] else [cur.reverse]
  | c :: cs =>
    if c.isWhitespace then
      if cur = [] then pySplitWsAux [] cs else cur.reverse :: pySplitWsAux [] cs
    else
      pySplitWsAux (c :: cur) cs

/-- Python " ".join(words) over char lists. -/
def joinWordsChar : List (List Char) → List Char
  | [] => []
  | [w] => w
  | w :: ws => w ++ ' ' :: joinWordsChar ws

/-- Python " ".join(s.split()) (fetcher.py lines 41-42): the whitespace
normalization applied to arXiv titles and abstracts. -/
def normWs (s : String) : String :=
  String.mk (joinWordsChar (pySplitWsAux [] s.data))

/-- Python str(n).zfill(2) for a natural number (fetcher.py line 232). -/
def zfill2 (n : Nat) : String :=
  let s := toString n
  if s.length < 2 then "0" ++ s else s

/-- Python list(dict.fromkeys(l)) (fetcher.py line 136): remove
duplicates keeping the first occurrence of each element; seen holds the
keys already emitted. -/
def pyDedupAux (seen : List String) : List String → List String
  | [] => []
  | x :: xs =>
    if x ∈ seen then pyDedupAux seen xs else x :: pyDedupAux (x :: seen) xs

/-- Python list(dict.fromkeys(l)). -/
def pyDedup (l : List String) : List String :=
  pyDedupAux [] l

/-! ### arXiv adapter (fetcher.py lines 17-68) -/

/-- An Atom link element: its title attribute and href attribute, each
possibly absent. -/
structure AtomLink where
  linkTitle : Option String
  href : Option String
deriving Repr, DecidableEq

/-- The fields of one Atom entry element that parse_arxiv_entry reads.
Category term attributes may be absent, hence Option. -/
structure ArxivEntry where
  id_text : String
  title_text : String
  summary_text : String
  author_names : List String
  category_terms : List (Option String)
  links : List AtomLink
  published_text : String
deriving Repr, DecidableEq

/-- The category comprehension of fetcher.py lines 44-48 and 126-130:
keep the term attributes that start with "cs."; an absent term defaults
to "" in the filter and so never passes. -/
def csCats (terms : List (Option String)) : List String :=
  terms.filterMap fun t =>
    match t with
    | some s => if pyStartsWith s "cs." then some s else none
    | none => none

/-- The pdf-link loop of fetcher.py lines 50-54: the first link whose
title attribute equals "pdf" contributes its href (defaulted to ""), and
the loop breaks there; when no such link exists the result stays "". -/
def findPdfHref : List AtomLink → String
  | [] => ""
  | l :: ls =>
    if l.linkTitle = some "pdf" then l.href.getD "" else findPdfHref ls

/-- The function _parse_arxiv_entry (fetcher.py lines 36-68). The
Python expression (pdf_url or fallback) takes the fallback exactly when
the found href is the empty string. -/
def parse_arxiv_entry (e : ArxivEntry) : PaperRecord :=
  let arxiv_id := lastPart e.id_text "/abs/"
  let pdf := findPdfHref e.links
  { arxiv_id := arxiv_id
    title := normWs e.title_text
    authors := e.author_names
    abstract := normWs e.summary_text
    categories := csCats e.category_terms
    url := "https://arxiv.org/abs/" ++ arxiv_id
    pdf_url := if pdf = "" then "https://arxiv.org/pdf/" ++ arxiv_id else pdf
    published := pyTake e.published_text 10
    source := "arxiv" }

/-- The entry loop of fetch_arxiv_papers (fetcher.py lines 28-33); the
parsed dict is always truthy, so every entry is appended. -/
def fetch_arxiv_papers (entries : List ArxivEntry) : List PaperRecord :=
  entries.map parse_arxiv_entry

/-! ### HuggingFace adapter (fetcher.py lines 71-108) -/

/-- The nested paper object of one HuggingFace daily-papers item, with
the .get defaults of fetcher.py lines 82-96 already applied (an absent
or null publishedAt collapses to "" via (p.get(...) or "")). -/
structure HFPaper where
  id : String
  title : String
  author_names : List String
  summary : String
  publishedAt : String
deriving Repr, DecidableEq

/-- The record built for one HuggingFace item (fetcher.py lines 85-99). -/
def hfRecordOf (p : HFPaper) : PaperRecord :=
  { arxiv_id := p.id
    title := p.title
    authors := p.author_names
    abstract := p.summary
    categories := ["trending"]
    url := "https://arxiv.org/abs/" ++ p.id
    pdf_url := "https://arxiv.org/pdf/" ++ p.id
    published := pyTake p.publishedAt 10
    source := "huggingface" }

/-- The item loop of fetch_hf_daily_papers (fetcher.py lines 80-99):
items whose id is empty are skipped. -/
def hfBaseRecords (items : List HFPaper) : List PaperRecord :=
  (items.filter fun p => p.id != "").map hfRecordOf

/-! ### Category enricher (fetcher.py lines 111-143) -/

/-- The cat_map construction of fetcher.py lines 122-131, as an
association list written in insertion order. -/
def build_cat_map (entries : List ArxivEntry) : List (String × List String) :=
  entries.map fun e =>
    (stripVersion (lastPart e.id_text "/abs/"), csCats e.category_terms)

/-- Python cat_map.get(k, []): in a dict the last binding of a key wins,
so look up the last matching pair. -/
def dictGet (m : List (String × List String)) (k : String) : List String :=
  match m.reverse.find? (fun kv => kv.1 == k) with
  | some kv => kv.2
  | none => []

/-- The per-record merge of fetcher.py line 136:
p["categories"] = list(dict.fromkeys(["trending"] + real_cats)). -/
def enrichRecord (m : List (String × List String)) (p : PaperRecord) : PaperRecord :=
  { p with categories := pyDedup ("trending" :: dictGet m p.arxiv_id) }

/-- The function _enrich_hf_categories (fetcher.py lines 111-143). All
fallible steps (the HTTP request, the XML parse, and the cat_map
construction whose .text accesses may raise) happen before the mutation
loop, so a failure leaves every input record untouched and the except
arm returns the input list unchanged. -/
def enrich_hf_categories (papers : List PaperRecord)
    (fetchR : Except Unit (List ArxivEntry)) : List PaperRecord :=
  match fetchR with
  | Except.error _ => papers
  | Except.ok entries => papers.map (enrichRecord (build_cat_map entries))

/-- The function fetch_hf_daily_papers (fetcher.py lines 71-108): on any
fetch error the whole adapter returns []; on success the records are
enriched only when the batch is non-empty. -/
def fetch_hf_daily_papers (fetchR : Except Unit (List HFPaper))
    (enrichR : Except Unit (List ArxivEntry)) : List PaperRecord :=
  match fetchR with
  | Except.error _ => []
  | Except.ok items =>
    let papers := hfBaseRecords items
    if papers = [] then papers else enrich_hf_categories papers enrichR

/-! ### Crossref venue adapter (fetcher.py lines 150-248) -/

/-- Scan for the char after the next closing angle bracket, counting the
skipped characters; used to model the regex <[^>]+> of fetcher.py
line 226. -/
def tagEndGo : List Char → Nat → Option Nat
  | [], _ => none
  | '>' :: _, n => some n
  | _ :: r, n => tagEndGo r (n + 1)

/-- Distance from the char after an opening angle bracket to just past
the matching closing bracket, but none when the very next char closes
the tag (the regex requires at least one inner character). -/
def tagEndIdx : List Char → Option Nat
  | [] => none
  | '>' :: _ => none
  | _ :: rest => tagEndGo rest 2

/-- Python re.sub(r"<[^>]+>", "", s) (fetcher.py line 226): the Nat
argument counts characters of an already-matched tag still to drop. -/
def stripTagsAux : List Char → Nat → List Char
  | [], _ => []
  | _ :: cs, Nat.succ k => stripTagsAux cs k
  | c :: cs, 0 =>
    if c = '<' then
      match tagEndIdx cs with
      | some n => stripTagsAux cs n
      | none => c :: stripTagsAux cs 0
    else
      c :: stripTagsAux cs 0

/-- One Crossref works item, with the .get defaults of fetcher.py
lines 207-229 applied: title list, DOI, author given/family pairs, raw
abstract, and the date-parts of the published field. -/
structure CrossrefItem where
  titles : List String
  doi : String
  author_fields : List (String × String)
  abstract : String
  date_parts : List (List Nat)
deriving Repr, DecidableEq

/-- The date reconstruction of fetcher.py lines 229-234: empty when the
parts list is missing or empty, else the dash-join of the zero-padded
components of the first parts list. -/
def crDate : List (List Nat) → String
  | [] => ""
  | parts :: _ =>
    if parts = [] then "" else String.intercalate "-" (parts.map zfill2)

/-- The per-item record construction of fetcher.py lines 207-246; an
item whose title list is empty is skipped (the continue on line 210). -/
def crossrefRecord (tag : String) (item : CrossrefItem) : Option PaperRecord :=
  match item.titles with
  | [] => none
  | title :: _ =>
    some
      { arxiv_id :=
          if item.doi = "" then "cr-" ++ pyTake title 30 else "doi-" ++ item.doi
        title := title
        authors := item.author_fields.map fun a => pyStrip (a.1 ++ " " ++ a.2)
        abstract :=
          if item.abstract = "" then ""
          else pyStrip (String.mk (stripTagsAux item.abstract.data 0))
        categories := [tag, "cs.HC"]
        url := if item.doi = "" then "" else "https://doi.org/" ++ item.doi
        pdf_url := if item.doi = "" then "" else "https://doi.org/" ++ item.doi
        published := crDate item.date_parts
        source := "crossref" }

/-- The item loop of _fetch_crossref_venue (fetcher.py lines 206-248). -/
def fetch_crossref_venue (tag : String) (items : List CrossrefItem) : List PaperRecord :=
  items.filterMap (crossrefRecord tag)

/-- The title-variant loop of fetch_venue_papers (fetcher.py
lines 172-182): each variant query either raises (error) or returns a
batch; the first variant whose batch is non-empty wins and the loop
breaks; raising or empty variants fall through to the next. -/
def firstVariantPapers : List (Except Unit (List PaperRecord)) → List PaperRecord
  | [] => []
  | Except.error _ :: rs => firstVariantPapers rs
  | Except.ok ps :: rs => if ps = [] then firstVariantPapers rs else ps

/-- The venue loop of fetch_venue_papers (fetcher.py lines 170-187):
all_papers accumulates each venue contribution by extend, so the result
is the concatenation over venues in order. -/
def fetch_venue_papers (venues : List (List (Except Unit (List PaperRecord)))) : List PaperRecord :=
  (venues.map firstVariantPapers).flatten

/-! ### Aggregator (app.py do_fetch lines 49-93, scripts/fetch_papers.py
main lines 20-33): each adapter call is wrapped in its own try block and
a failure contributes nothing. -/

/-- The records one adapter contributes to the papers list: its batch on
success, nothing when it raised. -/
def adapterBatch (r : Except Unit (List PaperRecord)) : List PaperRecord :=
  match r with
  | Except.ok l => l
  | Except.error _ => []

/-- The papers list built by do_fetch (app.py lines 54-66) and by
scripts/fetch_papers.py main (lines 23-33): arXiv contribution first,
then HuggingFace. -/
def do_fetch_papers (arxivR hfR : Except Unit (List PaperRecord)) : List PaperRecord :=
  adapterBatch arxivR ++ adapterBatch hfR

/-! ### Spec-side checkers -/

/-- Exact YYYY-MM-DD shape: ten chars, digits in the year, month and day
positions, dashes between. -/
def isIsoShape (s : String) : Bool :=
  match s.data with
  | [y1, y2, y3, y4, '-', m1, m2, '-', d1, d2] =>
    y1.isDigit && y2.isDigit && y3.isDigit && y4.isDigit &&
    m1.isDigit && m2.isDigit && d1.isDigit && d2.isDigit
  | _ => false

/-- No two adjacent whitespace characters. -/
def noAdjWs : List Char → Bool
  | a :: b :: rest => (!(a.isWhitespace && b.isWhitespace)) && noAdjWs (b :: rest)
  | _ => true

/-- True when the last character, if any, is not whitespace (the
default char is a non-whitespace placeholder for the empty case). -/
def lastNotWs (l : List Char) : Bool :=
  !((l.getLast?.getD 'x').isWhitespace)

/-- Whitespace-normalized in the sense of the spec, over char lists: no
leading or trailing whitespace, no run of two whitespace characters, and
every whitespace character is a plain space. -/
def wsCollapsedL : List Char → Bool
  | [] => true
  | c :: cs =>
    (!c.isWhitespace) && lastNotWs (c :: cs) && noAdjWs (c :: cs) &&
    ((c :: cs).all fun x => !x.isWhitespace || x == ' ')

/-- Whitespace-normalized in the sense of the spec. -/
def wsCollapsed (s : String) : Bool :=
  wsCollapsedL s.data

/-- Equality of every PaperRecord field except categories. -/
def sameExceptCats (p q : PaperRecord) : Prop :=
  p.arxiv_id = q.arxiv_id ∧ p.title = q.title ∧ p.authors = q.authors ∧
  p.abstract = q.abstract ∧ p.url = q.url ∧ p.pdf_url = q.pdf_url ∧
  p.published = q.published ∧ p.source = q.source

/-! ### Lemmas about the dedup of dict.fromkeys -/

theorem mem_pyDedupAux : ∀ (l seen : List String) (x : String),
    x ∈ pyDedupAux seen l ↔ x ∈ l ∧ x ∉ seen := by
  intro l
  induction l with
  | nil => intro seen x; simp [pyDedupAux]
  | cons a t ih =>
    intro seen x
    by_cases ha : a ∈ seen
    · rw [pyDedupAux, if_pos ha, ih]
      constructor
      · rintro ⟨hx, hn⟩; exact ⟨List.mem_cons_of_mem _ hx, hn⟩
      · rintro ⟨hx, hn⟩
        rcases List.mem_cons.mp hx with rfl | hx
        · exact absurd ha hn
        · exact ⟨hx, hn⟩
    · rw [pyDedupAux, if_neg ha]
      constructor
      · intro hx
        rcases List.mem_cons.mp hx with rfl | hx
        · exact ⟨List.mem_cons_self _ _, ha⟩
        · rcases (ih _ _).mp hx with ⟨hxt, hxs⟩
          exact ⟨List.mem_cons_of_mem _ hxt,
            fun hc => hxs (List.mem_cons_of_mem _ hc)⟩
      · rintro ⟨hx, hn⟩
        by_cases hxa : x = a
        · subst hxa; exact List.mem_cons_self _ _
        · rcases List.mem_cons.mp hx with rfl | hxt
          · exact absurd rfl hxa
          · refine List.mem_cons_of_mem _ ((ih _ _).mpr ⟨hxt, ?_⟩)
            intro hc
            exact (List.mem_cons.mp hc).elim hxa hn

theorem nodup_pyDedupAux : ∀ (l seen : List String), (pyDedupAux seen l).Nodup := by
  intro l
  induction l with
  | nil => intro seen; simp [pyDedupAux]
  | cons a t ih =>
    intro seen
    by_cases ha : a ∈ seen
    · rw [pyDedupAux, if_pos ha]; exact ih seen
    · rw [pyDedupAux, if_neg ha]
      refine List.nodup_cons.mpr ⟨?_, ih _⟩
      intro hmem
      exact ((mem_pyDedupAux t _ a).mp hmem).2 (List.mem_cons_self _ _)

theorem sublist_pyDedupAux : ∀ (l seen : List String), (pyDedupAux seen l).Sublist l := by
  intro l
  induction l with
  | nil => intro seen; simp [pyDedupAux]
  | cons a t ih =>
    intro seen
    by_cases ha : a ∈ seen
    · rw [pyDedupAux, if_pos ha]
      exact (ih seen).trans (List.sublist_cons_self a t)
    · rw [pyDedupAux, if_neg ha]
      exact List.Sublist.cons₂ a (ih _)

theorem pyDedup_cons (x : String) (l : List String) :
    pyDedup (x :: l) = x :: pyDedupAux [x] l := by
  rw [pyDedup, pyDedupAux, if_neg (List.not_mem_nil x)]

/-! ### Claim theorems -/

/-- Claim C2: enriching a HuggingFace record whose arXiv lookup returns
cats sets its categories to the first-seen-order dedup of
trending :: cats, with trending first and no duplicates; in particular a
lookup of cs.AI, cs.HC yields exactly trending, cs.AI, cs.HC. -/
theorem hf_enrich_categories_C2 (m : List (String × List String)) (p : PaperRecord)
    (cats : List String) (h : dictGet m p.arxiv_id = cats) :
    (enrichRecord m p).categories = pyDedup ("trending" :: cats) ∧
    (enrichRecord m p).categories.head? = some "trending" ∧
    (enrichRecord m p).categories.Nodup ∧
    (enrichRecord m p).categories.Sublist ("trending" :: cats) ∧
    (∀ x, x ∈ (enrichRecord m p).categories ↔ x ∈ "trending" :: cats) ∧
    (∀ papers entries, enrich_hf_categories papers (Except.ok entries)
        = papers.map (enrichRecord (build_cat_map entries))) ∧
    (cats = ["cs.AI", "cs.HC"] →
      (enrichRecord m p).categories = ["trending", "cs.AI", "cs.HC"]) := by
  have hcat : (enrichRecord m p).categories = pyDedup ("trending" :: cats) := by
    rw [enrichRecord, h]
  refine ⟨hcat, ?_, ?_, ?_, ?_, ?_, ?_⟩
  · rw [hcat, pyDedup_cons]; rfl
  · rw [hcat, pyDedup]; exact nodup_pyDedupAux _ _
  · rw [hcat, pyDedup]; exact sublist_pyDedupAux _ _
  · intro x
    rw [hcat, pyDedup, mem_pyDedupAux]
    simp
  · intro papers entries; rfl
  · intro hc; rw [hcat, hc]; decide

/-- Witness for C2 at a concrete record and category map. -/
theorem hf_enrich_categories_C2_witness :
    (enrichRecord [("2301.00001", ["cs.AI", "cs.HC"])]
        (hfRecordOf ⟨"2301.00001", "T", [], "A", "2024-01-02T10:00:00Z"⟩)).categories
      = ["trending", "cs.AI", "cs.HC"] :=
  (hf_enrich_categories_C2 [("2301.00001", ["cs.AI", "cs.HC"])]
    (hfRecordOf ⟨"2301.00001", "T", [], "A", "2024-01-02T10:00:00Z"⟩)
    ["cs.AI", "cs.HC"] (by decide)).2.2.2.2.2.2 rfl

/-- Claim C10: the enricher, on success or failure, returns a list of
the same length and order in which every field other than categories is
unchanged. -/
theorem enrich_frame_C10 (papers : List PaperRecord)
    (r : Except Unit (List ArxivEntry)) :
    List.Forall₂ sameExceptCats papers (enrich_hf_categories papers r) ∧
    (enrich_hf_categories papers r).length = papers.length := by
  have hall : List.Forall₂ sameExceptCats papers (enrich_hf_categories papers r) := by
    cases r with
    | error e =>
      exact List.forall₂_same.mpr fun x _ =>
        ⟨rfl, rfl, rfl, rfl, rfl, rfl, rfl, rfl⟩
    | ok entries =>
      show List.Forall₂ sameExceptCats papers
        (papers.map (enrichRecord (build_cat_map entries)))
      induction papers with
      | nil => exact List.Forall₂.nil
      | cons p ps ih =>
        exact List.Forall₂.cons ⟨rfl, rfl, rfl, rfl, rfl, rfl, rfl, rfl⟩ ih
  exact ⟨hall, hall.length_eq.symm⟩

/-- Claim C4: a failed enrichment returns the input records unchanged,
so HuggingFace records keep their single trending category, and the
adapter still returns its base batch. -/
theorem enrich_failure_passthrough_C4 (papers : List PaperRecord)
    (items : List HFPaper) (e : Unit) :
    enrich_hf_categories papers (Except.error e) = papers ∧
    fetch_hf_daily_papers (Except.ok items) (Except.error e) = hfBaseRecords items ∧
    (∀ p, p ∈ hfBaseRecords items → p.categories = ["trending"]) := by
  refine ⟨rfl, ?_, ?_⟩
  · show (if hfBaseRecords items = [] then hfBaseRecords items
      else enrich_hf_categories (hfBaseRecords items) (Except.error e))
      = hfBaseRecords items
    split
    · rfl
    · rfl
  · intro p hp
    rcases List.mem_map.mp hp with ⟨q, _, rfl⟩
    rfl

/-- Witness for C4 at a concrete record batch. -/
theorem enrich_failure_passthrough_C4_witness :
    enrich_hf_categories [hfRecordOf ⟨"2301.00001", "t", [], "s", ""⟩]
        (Except.error ()) = [hfRecordOf ⟨"2301.00001", "t", [], "s", ""⟩] ∧
    (hfRecordOf ⟨"2301.00001", "t", [], "s", ""⟩).categories = ["trending"] :=
  ⟨(enrich_failure_passthrough_C4 [hfRecordOf ⟨"2301.00001", "t", [], "s", ""⟩] [] ()).1,
   (enrich_failure_passthrough_C4 [] [⟨"2301.00001", "t", [], "s", ""⟩] ()).2.2
     (hfRecordOf ⟨"2301.00001", "t", [], "s", ""⟩) (by decide)⟩

/-- Claim C3: the aggregated papers list is the concatenation of the
batches of the adapters that succeeded, in adapter order; one failing
adapter contributes nothing without hiding the other, and when both fail
the aggregator still returns the empty list. -/
theorem aggregator_partial_failure_C3 (la lh : List PaperRecord) :
    do_fetch_papers (Except.ok la) (Except.ok lh) = la ++ lh ∧
    do_fetch_papers (Except.ok la) (Except.error ()) = la ∧
    do_fetch_papers (Except.error ()) (Except.ok lh) = lh ∧
    do_fetch_papers (Except.error ()) (Except.error ()) = [] :=
  ⟨rfl, by simp [do_fetch_papers, adapterBatch], rfl, rfl⟩

theorem firstVariant_all_fail (vs : List (Except Unit (List PaperRecord)))
    (h : ∀ r ∈ vs, r = Except.error () ∨ r = Except.ok []) :
    firstVariantPapers vs = [] := by
  induction vs with
  | nil => rfl
  | cons r rs ih =>
    have hrest : ∀ x ∈ rs, x = Except.error () ∨ x = Except.ok [] :=
      fun x hx => h x (List.mem_cons_of_mem _ hx)
    rcases h r (List.mem_cons_self _ _) with rfl | rfl
    · rw [firstVariantPapers]; exact ih hrest
    · rw [firstVariantPapers, if_pos rfl]; exact ih hrest

theorem firstVariant_first_success (pre rest : List (Except Unit (List PaperRecord)))
    (ps : List PaperRecord)
    (hpre : ∀ r ∈ pre, r = Except.error () ∨ r = Except.ok [])
    (hps : ps ≠ []) :
    firstVariantPapers (pre ++ Except.ok ps :: rest) = ps := by
  induction pre with
  | nil => rw [List.nil_append, firstVariantPapers, if_neg hps]
  | cons r rs ih =>
    have hrest : ∀ x ∈ rs, x = Except.error () ∨ x = Except.ok [] :=
      fun x hx => hpre x (List.mem_cons_of_mem _ hx)
    rcases hpre r (List.mem_cons_self _ _) with rfl | rfl
    · rw [List.cons_append, firstVariantPapers]; exact ih hrest
    · rw [List.cons_append, firstVariantPapers, if_pos rfl]; exact ih hrest

theorem fetch_venue_papers_cons (v : List (Except Unit (List PaperRecord)))
    (vs : List (List (Except Unit (List PaperRecord)))) :
    fetch_venue_papers (v :: vs) = firstVariantPapers v ++ fetch_venue_papers vs := by
  rw [fetch_venue_papers, List.map_cons, List.flatten_cons, fetch_venue_papers]

/-- Claim C6: a venue tries its title variants in order; the first
variant that neither raises nor returns an empty batch wins and exactly
its batch is emitted for the venue, while a venue whose variants all
fail contributes nothing and does not abort the sweep over the remaining
venues. -/
theorem crossref_variant_order_C6 (pre rest : List (Except Unit (List PaperRecord)))
    (ps : List PaperRecord)
    (hpre : ∀ r ∈ pre, r = Except.error () ∨ r = Except.ok [])
    (hps : ps ≠ []) :
    firstVariantPapers (pre ++ Except.ok ps :: rest) = ps ∧
    firstVariantPapers pre = [] ∧
    (∀ vs, fetch_venue_papers ((pre ++ Except.ok ps :: rest) :: vs)
        = ps ++ fetch_venue_papers vs) ∧
    (∀ vs, fetch_venue_papers (pre :: vs) = fetch_venue_papers vs) := by
  refine ⟨firstVariant_first_success pre rest ps hpre hps,
    firstVariant_all_fail pre hpre, ?_, ?_⟩
  · intro vs
    rw [fetch_venue_papers_cons, firstVariant_first_success pre rest ps hpre hps]
  · intro vs
    rw [fetch_venue_papers_cons, firstVariant_all_fail pre hpre, List.nil_append]

/-- Witness for C6: variants raise, return nothing, then succeed. -/
theorem crossref_variant_order_C6_witness :
    firstVariantPapers
        [Except.error (), Except.ok [],
         Except.ok [hfRecordOf ⟨"2301.00001", "t", [], "s", ""⟩],
         Except.ok [hfRecordOf ⟨"9999.00001", "u", [], "s", ""⟩]]
      = [hfRecordOf ⟨"2301.00001", "t", [], "s", ""⟩] :=
  (crossref_variant_order_C6 [Except.error (), Except.ok []]
    [Except.ok [hfRecordOf ⟨"9999.00001", "u", [], "s", ""⟩]]
    [hfRecordOf ⟨"2301.00001", "t", [], "s", ""⟩]
    (by
      intro r hr
      rcases List.mem_cons.mp hr with rfl | hr
      · exact Or.inl rfl
      rcases List.mem_cons.mp hr with rfl | hr
      · exact Or.inr rfl
      exact absurd hr (List.not_mem_nil r))
    (by decide)).1

theorem findPdfHref_no_pdf (links : List AtomLink)
    (h : ∀ l ∈ links, l.linkTitle ≠ some "pdf") : findPdfHref links = "" := by
  induction links with
  | nil => rfl
  | cons l ls ih =>
    rw [findPdfHref, if_neg (h l (List.mem_cons_self _ _))]
    exact ih fun x hx => h x (List.mem_cons_of_mem _ hx)

theorem findPdfHref_first_pdf (pre : List AtomLink) (l : AtomLink)
    (post : List AtomLink)
    (hpre : ∀ x ∈ pre, x.linkTitle ≠ some "pdf") (hl : l.linkTitle = some "pdf") :
    findPdfHref (pre ++ l :: post) = l.href.getD "" := by
  induction pre with
  | nil => rw [List.nil_append, findPdfHref, if_pos hl]
  | cons x xs ih =>
    rw [List.cons_append, findPdfHref, if_neg (hpre x (List.mem_cons_self _ _))]
    exact ih fun y hy => hpre y (List.mem_cons_of_mem _ hy)

/-- Claim C7: an arXiv entry with no pdf-titled link, or whose pdf link
carries an empty href, gets the constructed fallback pdf URL; a pdf link
with a non-empty href is used as is. -/
theorem arxiv_pdf_fallback_C7 (e : ArxivEntry) :
    ((∀ l ∈ e.links, l.linkTitle ≠ some "pdf") →
      (parse_arxiv_entry e).pdf_url
        = "https://arxiv.org/pdf/" ++ lastPart e.id_text "/abs/") ∧
    (∀ pre l post, e.links = pre ++ l :: post →
      (∀ x ∈ pre, x.linkTitle ≠ some "pdf") → l.linkTitle = some "pdf" →
      ((l.href.getD "" = "" →
          (parse_arxiv_entry e).pdf_url
            = "https://arxiv.org/pdf/" ++ lastPart e.id_text "/abs/") ∧
       (l.href.getD "" ≠ "" →
          (parse_arxiv_entry e).pdf_url = l.href.getD ""))) := by
  constructor
  · intro h
    have hf : findPdfHref e.links = "" := findPdfHref_no_pdf e.links h
    simp [parse_arxiv_entry, hf]
  · intro pre l post hsplit hpre hl
    have hf : findPdfHref e.links = l.href.getD "" := by
      rw [hsplit]; exact findPdfHref_first_pdf pre l post hpre hl
    constructor
    · intro hempty
      simp [parse_arxiv_entry, hf, hempty]
    · intro hne
      simp [parse_arxiv_entry, hf, hne]

/-- Witness for C7: an entry without a pdf link gets the fallback URL,
and an entry whose pdf link has a non-empty href keeps that href. -/
theorem arxiv_pdf_fallback_C7_witness :
    (parse_arxiv_entry
        ⟨"http://arxiv.org/abs/2301.00001v1", "T", "S", [], [], [],
          "2024-01-02T00:00:00Z"⟩).pdf_url = "https://arxiv.org/pdf/2301.00001v1" ∧
    (parse_arxiv_entry
        ⟨"http://arxiv.org/abs/2301.00002v1", "T", "S", [], [],
          [⟨some "pdf", some "http://arxiv.org/pdf/2301.00002v1"⟩],
          "2024-01-02T00:00:00Z"⟩).pdf_url = "http://arxiv.org/pdf/2301.00002v1" := by
  constructor
  · have h := (arxiv_pdf_fallback_C7
      ⟨"http://arxiv.org/abs/2301.00001v1", "T", "S", [], [], [],
        "2024-01-02T00:00:00Z"⟩).1 (by decide)
    rw [h]; decide
  · have h := ((arxiv_pdf_fallback_C7
      ⟨"http://arxiv.org/abs/2301.00002v1", "T", "S", [], [],
        [⟨some "pdf", some "http://arxiv.org/pdf/2301.00002v1"⟩],
        "2024-01-02T00:00:00Z"⟩).2 []
      ⟨some "pdf", some "http://arxiv.org/pdf/2301.00002v1"⟩ [] rfl
      (by simp) rfl).2 (by decide)
    rw [h]; rfl

/-- Claim C1 as stated is false on the code: a Crossref item whose
date-parts are year and month only yields the partial date 2024-01,
which is neither of the exact shape YYYY-MM-DD nor empty. -/
theorem published_shape_C1_counterexample :
    (fetch_crossref_venue "CHI"
        [⟨["A CHI Paper"], "10.1145/1", [], "", [[2024, 1]]⟩]).map
        PaperRecord.published = ["2024-01"] ∧
    isIsoShape "2024-01" = false ∧ "2024-01" ≠ "" := by decide

/-- Claim C1 amended: arXiv and HuggingFace records take the first ten
characters of the source timestamp, hence have the exact YYYY-MM-DD
shape whenever that prefix does; a Crossref record takes the zero-padded
dash-join of the date parts, which is empty when no parts are present
but may be a partial date such as 2024-01 when Crossref returns fewer
than three parts. -/
theorem published_shape_C1_amended :
    (∀ e : ArxivEntry, (parse_arxiv_entry e).published = pyTake e.published_text 10 ∧
      (isIsoShape (pyTake e.published_text 10) = true →
        isIsoShape (parse_arxiv_entry e).published = true)) ∧
    (∀ p : HFPaper, (hfRecordOf p).published = pyTake p.publishedAt 10 ∧
      (isIsoShape (pyTake p.publishedAt 10) = true →
        isIsoShape (hfRecordOf p).published = true)) ∧
    (∀ tag item r, crossrefRecord tag item = some r →
      r.published = crDate item.date_parts) ∧
    (∀ dp : List (List Nat), (dp = [] ∨ dp.headD [] = []) → crDate dp = "") := by
  refine ⟨?_, ?_, ?_, ?_⟩
  · intro e
    have hp : (parse_arxiv_entry e).published = pyTake e.published_text 10 := rfl
    exact ⟨hp, fun h => by rw [hp]; exact h⟩
  · intro p
    have hp : (hfRecordOf p).published = pyTake p.publishedAt 10 := rfl
    exact ⟨hp, fun h => by rw [hp]; exact h⟩
  · intro tag item r h
    cases htitles : item.titles with
    | nil => rw [crossrefRecord, htitles] at h; cases h
    | cons t ts =>
      rw [crossrefRecord, htitles] at h
      cases h
      rfl
  · intro dp hdp
    cases dp with
    | nil => rfl
    | cons parts rest =>
      rcases hdp with hnil | hhead
      · cases hnil
      · have : parts = [] := hhead
        rw [crDate, if_pos this]

/-- Witness for C1 amended at a concrete arXiv timestamp and an empty
Crossref date-parts list. -/
theorem published_shape_C1_amended_witness :
    isIsoShape (parse_arxiv_entry
        ⟨"http://arxiv.org/abs/2301.00001v1", "T", "S", [], [], [],
          "2024-01-02T00:00:00Z"⟩).published = true ∧
    crDate [] = "" :=
  ⟨(published_shape_C1_amended.1
      ⟨"http://arxiv.org/abs/2301.00001v1", "T", "S", [], [], [],
        "2024-01-02T00:00:00Z"⟩).2 (by decide),
   published_shape_C1_amended.2.2.2 [] (Or.inl rfl)⟩

/-- Claim C5 as stated is false on the code in two ways: two DOI-less
Crossref items whose distinct titles share their first thirty characters
receive the same synthetic id inside one batch from the same adapter,
and an arXiv entry whose feed id URL ends in the /abs/ separator is
emitted with an empty id. -/
theorem id_unique_C5_counterexample :
    (parse_arxiv_entry
        ⟨"http://arxiv.org/abs/", "T", "S", [], [], [],
          "2024-01-02T00:00:00Z"⟩).arxiv_id = "" ∧
    (fetch_crossref_venue "CHI"
        [⟨["AAAAAAAAAAAAAAAAAAAAAAAAAAAAAA Part One"], "", [], "", []⟩,
         ⟨["AAAAAAAAAAAAAAAAAAAAAAAAAAAAAA Part Two"], "", [], "", []⟩]).map
        PaperRecord.arxiv_id
      = ["cr-AAAAAAAAAAAAAAAAAAAAAAAAAAAAAA", "cr-AAAAAAAAAAAAAAAAAAAAAAAAAAAAAA"] ∧
    ¬ ((fetch_crossref_venue "CHI"
        [⟨["AAAAAAAAAAAAAAAAAAAAAAAAAAAAAA Part One"], "", [], "", []⟩,
         ⟨["AAAAAAAAAAAAAAAAAAAAAAAAAAAAAA Part Two"], "", [], "", []⟩]).map
        PaperRecord.arxiv_id).Nodup ∧
    ("AAAAAAAAAAAAAAAAAAAAAAAAAAAAAA Part One" : String)
      ≠ "AAAAAAAAAAAAAAAAAAAAAAAAAAAAAA Part Two" := by decide

/-- Claim C5 amended: HuggingFace items lacking an identifier are
skipped, so every emitted HuggingFace id is non-empty; an arXiv id is
the trailing segment of the feed id URL after the last /abs/, taken
verbatim, so it is non-empty exactly when that segment is (and empty
for a feed id ending in /abs/); a Crossref id is doi-DOI when a DOI is
present and otherwise cr- followed by the first thirty title
characters, and is always non-empty; uniqueness within one batch is not
guaranteed. -/
theorem id_nonempty_C5_amended :
    (∀ (items : List HFPaper) (p : PaperRecord),
      p ∈ hfBaseRecords items → p.arxiv_id ≠ "") ∧
    (∀ e : ArxivEntry,
      (parse_arxiv_entry e).arxiv_id = lastPart e.id_text "/abs/" ∧
      (lastPart e.id_text "/abs/" ≠ "" → (parse_arxiv_entry e).arxiv_id ≠ "")) ∧
    (∀ tag item r, crossrefRecord tag item = some r →
      ((item.doi ≠ "" → r.arxiv_id = "doi-" ++ item.doi) ∧
       (item.doi = "" → r.arxiv_id = "cr-" ++ pyTake (item.titles.headD "") 30) ∧
       r.arxiv_id ≠ "")) := by
  refine ⟨?_, ?_, ?_⟩
  · intro items p hp
    rcases List.mem_map.mp hp with ⟨q, hq, rfl⟩
    have hid : q.id ≠ "" := by
      have := (List.mem_filter.mp hq).2
      simpa [bne_iff_ne] using this
    exact hid
  · intro e
    have hid : (parse_arxiv_entry e).arxiv_id = lastPart e.id_text "/abs/" := rfl
    exact ⟨hid, fun hne => by rw [hid]; exact hne⟩
  · intro tag item r h
    cases htitles : item.titles with
    | nil => rw [crossrefRecord, htitles] at h; cases h
    | cons t ts =>
      rw [crossrefRecord, htitles] at h
      cases h
      by_cases hdoi : item.doi = ""
      · refine ⟨fun hc => absurd hdoi hc, fun _ => ?_, ?_⟩
        · show (if item.doi = "" then "cr-" ++ pyTake t 30 else "doi-" ++ item.doi)
            = "cr-" ++ pyTake ((t :: ts).headD "") 30
          rw [if_pos hdoi]; rfl
        · show (if item.doi = "" then "cr-" ++ pyTake t 30 else "doi-" ++ item.doi) ≠ ""
          rw [if_pos hdoi]
          intro hc
          have hlen := congrArg String.length hc
          rw [String.length_append] at hlen
          have h3 : ("cr-" : String).length = 3 := rfl
          have h0 : ("" : String).length = 0 := rfl
          rw [h3, h0] at hlen
          omega
      · refine ⟨fun _ => ?_, fun hc => absurd hc hdoi, ?_⟩
        · show (if item.doi = "" then "cr-" ++ pyTake t 30 else "doi-" ++ item.doi)
            = "doi-" ++ item.doi
          rw [if_neg hdoi]
        · show (if item.doi = "" then "cr-" ++ pyTake t 30 else "doi-" ++ item.doi) ≠ ""
          rw [if_neg hdoi]
          intro hc
          have hlen := congrArg String.length hc
          rw [String.length_append] at hlen
          have h4 : ("doi-" : String).length = 4 := rfl
          have h0 : ("" : String).length = 0 := rfl
          rw [h4, h0] at hlen
          omega

/-- Witness for C5 amended at a concrete HuggingFace item, a concrete
arXiv entry with a non-empty trailing id segment, and a concrete
Crossref item carrying a DOI. -/
theorem id_nonempty_C5_amended_witness :
    (hfRecordOf ⟨"2301.00001", "t", [], "s", ""⟩).arxiv_id ≠ "" ∧
    (parse_arxiv_entry
        ⟨"http://arxiv.org/abs/2301.00001v1", "T", "S", [], [], [],
          ""⟩).arxiv_id ≠ "" ∧
    (fetch_crossref_venue "CHI" [⟨["T"], "10.1145/99", [], "", []⟩]).map
        PaperRecord.arxiv_id = ["doi-10.1145/99"] := by
  refine ⟨id_nonempty_C5_amended.1 [⟨"2301.00001", "t", [], "s", ""⟩]
    (hfRecordOf ⟨"2301.00001", "t", [], "s", ""⟩) (by decide),
    (id_nonempty_C5_amended.2.1
      ⟨"http://arxiv.org/abs/2301.00001v1", "T", "S", [], [], [], ""⟩).2
      (by decide), ?_⟩
  decide

/-- Claim C9 as stated is false on the code: the arXiv adapter keeps the
category terms of the feed verbatim, so an entry repeating the same
cs-prefixed term yields a duplicated categories list. -/
theorem categories_nodup_C9_counterexample :
    (parse_arxiv_entry
        ⟨"http://arxiv.org/abs/2301.00001v1", "T", "S", [],
          [some "cs.AI", some "cs.AI"], [], "2024-01-02T00:00:00Z"⟩).categories
      = ["cs.AI", "cs.AI"] ∧
    ¬ (parse_arxiv_entry
        ⟨"http://arxiv.org/abs/2301.00001v1", "T", "S", [],
          [some "cs.AI", some "cs.AI"], [], "2024-01-02T00:00:00Z"⟩).categories.Nodup := by
  decide

/-- Claim C9 amended: enriched HuggingFace categories are duplicate-free
in first-seen order with trending first, pre-enrichment HuggingFace
categories are exactly trending, Crossref categories are the venue tag
followed by cs.HC (duplicate-free whenever the tag differs from cs.HC,
as both configured venue tags do); the arXiv adapter keeps the feed
category terms verbatim, so its lists may repeat a term. -/
theorem categories_nodup_C9_amended :
    (∀ (m : List (String × List String)) (p : PaperRecord),
      (enrichRecord m p).categories.Nodup ∧
      (enrichRecord m p).categories.head? = some "trending") ∧
    (∀ p : HFPaper, (hfRecordOf p).categories = ["trending"] ∧
      (hfRecordOf p).categories.Nodup) ∧
    (∀ tag item r, crossrefRecord tag item = some r →
      (r.categories = [tag, "cs.HC"] ∧ (tag ≠ "cs.HC" → r.categories.Nodup))) ∧
    (∀ e : ArxivEntry, (parse_arxiv_entry e).categories = csCats e.category_terms) := by
  refine ⟨?_, fun p => ⟨rfl, List.nodup_singleton "trending"⟩, ?_, fun e => rfl⟩
  · intro m p
    constructor
    · show (pyDedup ("trending" :: dictGet m p.arxiv_id)).Nodup
      rw [pyDedup]; exact nodup_pyDedupAux _ _
    · show (pyDedup ("trending" :: dictGet m p.arxiv_id)).head? = some "trending"
      rw [pyDedup_cons]; rfl
  · intro tag item r h
    cases htitles : item.titles with
    | nil => rw [crossrefRecord, htitles] at h; cases h
    | cons t ts =>
      rw [crossrefRecord, htitles] at h
      cases h
      refine ⟨rfl, fun htag => ?_⟩
      simp [List.nodup_cons, htag]

/-- Witness for C9 amended at a concrete enrichment and Crossref item. -/
theorem categories_nodup_C9_amended_witness :
    (enrichRecord [("2301.00001", ["cs.AI", "cs.AI", "cs.HC"])]
        (hfRecordOf ⟨"2301.00001", "T", [], "A", ""⟩)).categories.Nodup ∧
    (fetch_crossref_venue "UIST" [⟨["T"], "10.1145/7", [], "", []⟩]).map
        PaperRecord.categories = [["UIST", "cs.HC"]] := by
  refine ⟨(categories_nodup_C9_amended.1
    [("2301.00001", ["cs.AI", "cs.AI", "cs.HC"])]
    (hfRecordOf ⟨"2301.00001", "T", [], "A", ""⟩)).1, ?_⟩
  decide

theorem noAdjWs_of_no_ws : ∀ (l : List Char), (∀ c ∈ l, c.isWhitespace = false) →
    noAdjWs l = true := by
  intro l
  induction l with
  | nil => intro _; rfl
  | cons a t ih =>
    intro h
    cases t with
    | nil => rfl
    | cons b r =>
      have ha : a.isWhitespace = false := h a (List.mem_cons_self _ _)
      have hrest : noAdjWs (b :: r) = true :=
        ih fun c hc => h c (List.mem_cons_of_mem _ hc)
      simp [noAdjWs, ha, hrest]

theorem noAdjWs_append : ∀ (w l : List Char), (∀ c ∈ w, c.isWhitespace = false) →
    noAdjWs l = true → noAdjWs (w ++ l) = true := by
  intro w
  induction w with
  | nil => intro l _ hl; simpa using hl
  | cons c cs ih =>
    intro l hw hl
    have hc : c.isWhitespace = false := hw c (List.mem_cons_self _ _)
    have ihl : noAdjWs (cs ++ l) = true :=
      ih l (fun x hx => hw x (List.mem_cons_of_mem _ hx)) hl
    rw [List.cons_append]
    cases hcs : cs ++ l with
    | nil => rfl
    | cons b r =>
      have hbr : noAdjWs (b :: r) = true := hcs ▸ ihl
      simp [noAdjWs, hc, hbr]

theorem wsCollapsedL_word : ∀ (w : List Char), (∀ c ∈ w, c.isWhitespace = false) →
    wsCollapsedL w = true := by
  intro w hw
  cases w with
  | nil => rfl
  | cons c cs =>
    have hc : c.isWhitespace = false := hw c (List.mem_cons_self _ _)
    have hadj : noAdjWs (c :: cs) = true := noAdjWs_of_no_ws _ hw
    have hlast : lastNotWs (c :: cs) = true := by
      rw [lastNotWs]
      cases hgl : (c :: cs).getLast? with
      | none => decide
      | some x =>
        have hxmem : x ∈ c :: cs := by
          rcases List.mem_getLast?_eq_getLast hgl with ⟨hne, hx⟩
          rw [hx]
          exact List.getLast_mem hne
        simp [hw x hxmem]
    have hall : (c :: cs).all (fun x => !x.isWhitespace || x == ' ') = true := by
      rw [List.all_eq_true]
      intro x hx
      simp [hw x hx]
    simp [wsCollapsedL, hc, hadj, hlast, hall]

theorem wsCollapsedL_word_append (w l : List Char)
    (hw1 : w ≠ []) (hw2 : ∀ c ∈ w, c.isWhitespace = false)
    (hl : wsCollapsedL l = true) (hln : l ≠ []) :
    wsCollapsedL (w ++ ' ' :: l) = true := by
  obtain ⟨c, cs, rfl⟩ := List.exists_cons_of_ne_nil hw1
  obtain ⟨b, bs, rfl⟩ := List.exists_cons_of_ne_nil hln
  rw [wsCollapsedL] at hl
  simp only [Bool.and_eq_true] at hl
  obtain ⟨⟨⟨hb, hlast⟩, hadj⟩, hall⟩ := hl
  have hbws : b.isWhitespace = false := by simpa using hb
  have hc : c.isWhitespace = false := hw2 c (List.mem_cons_self _ _)
  have hlast2 : lastNotWs ((c :: cs) ++ ' ' :: b :: bs) = true := by
    rw [lastNotWs, List.getLast?_append_cons, List.getLast?_cons_cons]
    rw [lastNotWs] at hlast
    exact hlast
  have hmid : noAdjWs (' ' :: b :: bs) = true := by
    simp [noAdjWs, hbws, hadj]
  have hadj2 : noAdjWs ((c :: cs) ++ ' ' :: b :: bs) = true :=
    noAdjWs_append (c :: cs) (' ' :: b :: bs) hw2 hmid
  have hall2 : ((c :: cs) ++ ' ' :: b :: bs).all
      (fun x => !x.isWhitespace || x == ' ') = true := by
    rw [List.all_append]
    have h1 : (c :: cs).all (fun x => !x.isWhitespace || x == ' ') = true := by
      rw [List.all_eq_true]
      intro x hx
      simp [hw2 x hx]
    have h2 : (' ' :: b :: bs).all (fun x => !x.isWhitespace || x == ' ') = true := by
      rw [List.all_cons, hall]
      decide
    rw [h1, h2]
    rfl
  rw [List.cons_append] at hlast2 hadj2 hall2
  rw [List.cons_append, wsCollapsedL]
  simp [hc, hlast2, hadj2, hall2]

theorem joinWordsChar_cons_eq (w w2 : List Char) (ws : List (List Char)) :
    joinWordsChar (w :: w2 :: ws) = w ++ ' ' :: joinWordsChar (w2 :: ws) := rfl

theorem joinWordsChar_cons_ne_nil (w : List Char) (ws : List (List Char)) (hw : w ≠ []) :
    joinWordsChar (w :: ws) ≠ [] := by
  cases ws with
  | nil => simpa [joinWordsChar] using hw
  | cons w2 ws2 =>
    rw [joinWordsChar_cons_eq]
    simp

theorem joinWords_wsCollapsed : ∀ (ws : List (List Char)),
    (∀ w ∈ ws, w ≠ [] ∧ ∀ c ∈ w, c.isWhitespace = false) →
    wsCollapsedL (joinWordsChar ws) = true := by
  intro ws
  induction ws with
  | nil => intro _; rfl
  | cons w rest ih =>
    intro h
    cases rest with
    | nil => exact wsCollapsedL_word w (h w (List.mem_cons_self _ _)).2
    | cons w2 ws2 =>
      have hw := h w (List.mem_cons_self _ _)
      have hrest : ∀ x ∈ w2 :: ws2, x ≠ [] ∧ ∀ c ∈ x, c.isWhitespace = false :=
        fun x hx => h x (List.mem_cons_of_mem _ hx)
      have hjoin : wsCollapsedL (joinWordsChar (w2 :: ws2)) = true := ih hrest
      have hne : joinWordsChar (w2 :: ws2) ≠ [] :=
        joinWordsChar_cons_ne_nil w2 ws2 (hrest w2 (List.mem_cons_self _ _)).1
      rw [joinWordsChar_cons_eq]
      exact wsCollapsedL_word_append w _ hw.1 hw.2 hjoin hne

theorem pySplitWsAux_words : ∀ (l cur : List Char),
    (∀ c ∈ cur, c.isWhitespace = false) →
    ∀ w ∈ pySplitWsAux cur l, w ≠ [] ∧ ∀ c ∈ w, c.isWhitespace = false := by
  intro l
  induction l with
  | nil =>
    intro cur hcur w hw
    rw [pySplitWsAux] at hw
    by_cases hc : cur = []
    · rw [if_pos hc] at hw
      exact absurd hw (List.not_mem_nil w)
    · rw [if_neg hc] at hw
      rcases List.mem_singleton.mp hw with rfl
      constructor
      · simpa using hc
      · intro c hcm
        exact hcur c (List.mem_reverse.mp hcm)
  | cons a t ih =>
    intro cur hcur w hw
    rw [pySplitWsAux] at hw
    by_cases ha : a.isWhitespace = true
    · rw [if_pos ha] at hw
      by_cases hc : cur = []
      · rw [if_pos hc] at hw
        exact ih [] (fun c hcm => absurd hcm (List.not_mem_nil c)) w hw
      · rw [if_neg hc] at hw
        rcases List.mem_cons.mp hw with rfl | hw2
        · constructor
          · simpa using hc
          · intro c hcm
            exact hcur c (List.mem_reverse.mp hcm)
        · exact ih [] (fun c hcm => absurd hcm (List.not_mem_nil c)) w hw2
    · rw [if_neg ha] at hw
      refine ih (a :: cur) ?_ w hw
      intro c hcm
      rcases List.mem_cons.mp hcm with rfl | h2
      · simpa using ha
      · exact hcur c h2

/-- Claim C8 as stated is false on the code: the HuggingFace adapter
takes the source title verbatim, so a title with a doubled space is
emitted unnormalized. -/
theorem title_normalized_C8_counterexample :
    (hfRecordOf ⟨"2301.00001", "Deep  Learning", [], "", ""⟩).title = "Deep  Learning" ∧
    wsCollapsed (hfRecordOf ⟨"2301.00001", "Deep  Learning", [], "", ""⟩).title = false ∧
    normWs "Deep  Learning" = "Deep Learning" ∧
    (hfRecordOf ⟨"2301.00001", "Deep  Learning", [], "", ""⟩).title
      ≠ normWs (hfRecordOf ⟨"2301.00001", "Deep  Learning", [], "", ""⟩).title := by
  decide

/-- Claim C8 amended: only the arXiv adapter whitespace-normalizes (its
titles and abstracts are the collapse of the source text, and every
normalized string has no leading, trailing, doubled or non-space
whitespace); HuggingFace and Crossref titles are taken verbatim from the
source. -/
theorem title_normalized_C8_amended :
    (∀ e : ArxivEntry, (parse_arxiv_entry e).title = normWs e.title_text ∧
      (parse_arxiv_entry e).abstract = normWs e.summary_text ∧
      wsCollapsed (parse_arxiv_entry e).title = true) ∧
    (∀ s : String, wsCollapsed (normWs s) = true) ∧
    (∀ p : HFPaper, (hfRecordOf p).title = p.title) ∧
    (∀ tag item r, crossrefRecord tag item = some r →
      r.title = item.titles.headD "") := by
  have hnorm : ∀ s : String, wsCollapsed (normWs s) = true := by
    intro s
    show wsCollapsedL (joinWordsChar (pySplitWsAux [] s.data)) = true
    exact joinWords_wsCollapsed _
      (pySplitWsAux_words s.data [] (fun c hc => absurd hc (List.not_mem_nil c)))
  refine ⟨?_, hnorm, fun p => rfl, ?_⟩
  · intro e
    have ht : (parse_arxiv_entry e).title = normWs e.title_text := rfl
    exact ⟨ht, rfl, by rw [ht]; exact hnorm _⟩
  · intro tag item r h
    cases htitles : item.titles with
    | nil => rw [crossrefRecord, htitles] at h; cases h
    | cons t ts =>
      rw [crossrefRecord, htitles] at h
      cases h
      rfl

/-- Witness for C8 amended at a concrete arXiv title. -/
theorem title_normalized_C8_amended_witness :
    (parse_arxiv_entry
        ⟨"http://arxiv.org/abs/2301.00001v1", " A   Title ", "S", [], [], [],
          ""⟩).title = "A Title" ∧
    wsCollapsed "A Title" = true := by
  have h := (title_normalized_C8_amended.1
    ⟨"http://arxiv.org/abs/2301.00001v1", " A   Title ", "S", [], [], [], ""⟩).1
  exact ⟨by rw [h]; decide, by decide⟩

end PaperDaily
